import Mathlib

/-!
Shallow embedding of `soil.py` (CatchmentAttributes repository) and proofs about
its depth-profile aggregation (`all_soil_depth_mean_weight_in_soilgrids250`),
its NetCDF variable reader (`read_nc_data`), and the sentinel remap performed by
`binary2tif`.

Modelling conventions:
* Strings (column names, file paths, attribute values) are lists of characters.
* Python's `pat in s` and `re.search(pat, s)` for the metacharacter-free
  patterns used by this module are both contiguous-substring search, embedded
  as `occursIn`.
* A `pandas.DataFrame` is a row count (the index length) plus an ordered list
  of named columns of rational values; `numpy.float64` arithmetic is embedded
  as exact rational arithmetic.
* Fallible code returns `Except Unit _`; a Python exception that the source
  does not catch is `.error ()`.
* Python `for` loops become structural recursions (`layerLoop`, `meanLoop`,
  `propsLoop`) so that the first raised exception aborts the loop, exactly as
  in the source.
-/

set_option allowUnsafeReducibility true

attribute [semireducible] Rat.sub Rat.add Rat.mul Rat.div Rat.inv

namespace CatchAttr

/-- Column names, file paths and attribute strings are modelled as lists of characters. -/
abbrev Name := List Char

/-- Tests whether `pat` is a prefix of `s`. -/
def leadsWith : Name → Name → Bool
  | [], _ => true
  | _ :: _, [] => false
  | a :: p, b :: s => a == b && leadsWith p s

/-- Tests whether `pat` occurs contiguously inside `s`.  This embeds Python's
`pat in s` (line 231 of soil.py) and `re.search` on the literal,
metacharacter-free patterns passed to `DataFrame.filter(regex=...)`
(lines 235 and 240 of soil.py). -/
def occursIn (pat : Name) : Name → Bool
  | [] => leadsWith pat []
  | b :: t => leadsWith pat (b :: t) || occursIn pat t

/-- Embeds Python's `col.split("_")[0]` (line 231 of soil.py): the characters
before the first underscore. -/
def splitHead : Name → Name
  | [] => []
  | c :: t => if c = '_' then [] else c :: splitHead t

/-- The layer pattern `"sl" + str(j)` built at line 240 of soil.py. -/
def slTag (j : Nat) : Name := ['s', 'l', Nat.digitChar j]

/-- The conventional name of layer `j` of property `p`: `{p}_sl{j}`. -/
def layerName (p : Name) (j : Nat) : Name := p ++ '_' :: slTag j

/-- One named column of a per-basin attribute table. -/
structure Col where
  name : Name
  vals : List ℚ
deriving DecidableEq

/-- A `pandas.DataFrame`: the length of its index together with its ordered,
named columns.  Well-formed tables have every column of length `nrows`. -/
structure DF where
  nrows : Nat
  cols : List Col
deriving DecidableEq

/-- Embeds `attr_df.filter(regex=pat)` (lines 235 and 240 of soil.py): keep the
columns whose name matches the literal pattern; the index is unchanged. -/
def filterCols (d : DF) (pat : Name) : DF :=
  ⟨d.nrows, d.cols.filter (fun c => occursIn pat c.name)⟩

/-- Embeds line 231 of soil.py:
`cols = [col.split("_")[0] for col in all_cols if "sl1" in col]`. -/
def detectedProps (d : DF) : List Name :=
  ((d.cols.map Col.name).filter (fun c => occursIn (slTag 1) c)).map splitHead

/-- The values of the first column named `nm` (empty if there is none). -/
def lookupCol (d : DF) (nm : Name) : List ℚ :=
  match d.cols.find? (fun c => decide (c.name = nm)) with
  | some c => c.vals
  | none => []

/-- Row `k` of a list of columns, out-of-range entries read as `0`. -/
def rowSlice (cols : List Col) (k : Nat) : List ℚ :=
  cols.map (fun c => c.vals.getD k 0)

/-- Rows `0 .. r-1` of a column list, concatenated in row-major order. -/
def flattenAux (cols : List Col) : Nat → List ℚ
  | 0 => []
  | r + 1 => flattenAux cols r ++ rowSlice cols r

/-- Embeds `df.values.flatten()` (line 240 of soil.py): the row-major
flattening of the table's value matrix, of length `nrows * #columns`. -/
def flattenVals (d : DF) : List ℚ := flattenAux d.cols d.nrows

/-- Embeds `np.zeros(attr_.shape)` (line 236 of soil.py), stored as `m`
columns of `n` zeros. -/
def zerosMat (n m : Nat) : List (List ℚ) := List.replicate m (List.replicate n 0)

/-- Embeds one iteration of the layer loop (lines 239-240 of soil.py):
`all_numbers[:, j - 1] = attr_.filter(regex="sl" + str(j)).values.flatten()`.
The matrix `A` has `m` columns of length `n`.  Writing column `j - 1` raises
`IndexError` when `j - 1 ≥ m`; broadcasting the flattened right-hand side into
a length-`n` column raises `ValueError` unless its length is `n` or `1`. -/
def layerStep (attr1 : DF) (n m : Nat) (A : List (List ℚ)) (j : Nat) :
    Except Unit (List (List ℚ)) :=
  if j - 1 < m then
    if (flattenVals (filterCols attr1 (slTag j))).length = n then
      .ok (A.set (j - 1) (flattenVals (filterCols attr1 (slTag j))))
    else if (flattenVals (filterCols attr1 (slTag j))).length = 1 then
      .ok (A.set (j - 1) (List.replicate n ((flattenVals (filterCols attr1 (slTag j))).getD 0 0)))
    else .error ()
  else .error ()

/-- Sequencing of fallible steps: the first raised exception aborts the rest,
exactly like Python exception propagation. -/
def exBind {α β : Type} (e : Except Unit α) (f : α → Except Unit β) : Except Unit β :=
  match e with
  | .ok a => f a
  | .error e' => .error e'

/-- The layer loop `for j in range(1, 8)` of lines 239-240 of soil.py. -/
def layerLoop (attr1 : DF) (n m : Nat) : List Nat → List (List ℚ) → Except Unit (List (List ℚ))
  | [], A => .ok A
  | j :: js, A => exBind (layerStep attr1 n m A j) (fun A' => layerLoop attr1 n m js A')

/-- Embeds `soil_depths = np.array([0, 5, 15, 30, 60, 100, 200])`
(line 232 of soil.py). -/
def soil_depths : List ℚ := [0, 5, 15, 30, 60, 100, 200]

/-- Embeds `heights = soil_depths[1:] - soil_depths[:-1]` (line 233 of soil.py). -/
def heights : List ℚ :=
  List.zipWith (fun a b => a - b) soil_depths.tail soil_depths.dropLast

/-- Row `k` of the matrix `A` (stored as a list of columns). -/
def rowOf (A : List (List ℚ)) (k : Nat) : List ℚ := A.map (fun col => col.getD k 0)

/-- The adjacent-sum vector `all_numbers[k, :-1] + all_numbers[k, 1:]` of
line 243 of soil.py. -/
def pairOf (A : List (List ℚ)) (k : Nat) : List ℚ :=
  List.zipWith (fun a b => a + b) (rowOf A k).dropLast (rowOf A k).tail

/-- Embeds lines 242-243 of soil.py:
`np.sum(heights * (all_numbers[k, :-1] + all_numbers[k, 1:]) / 2) / 200`.
The elementwise product of `heights` (length 6) with the length-`(m-1)` vector
of adjacent sums broadcasts only when the latter has length 6 or 1. -/
def meanOfRow (A : List (List ℚ)) (k : Nat) : Except Unit ℚ :=
  if (pairOf A k).length = heights.length then
    .ok ((List.zipWith (fun h s => h * s / 2) heights (pairOf A k)).sum / 200)
  else if (pairOf A k).length = 1 then
    .ok ((heights.map (fun h => h * (pairOf A k).getD 0 0 / 2)).sum / 200)
  else .error ()

/-- The row loop `for k in range(len(mean_value))` of lines 241-243 of soil.py. -/
def meanLoop (A : List (List ℚ)) : List Nat → Except Unit (List ℚ)
  | [] => .ok []
  | k :: ks =>
    exBind (meanOfRow A k) (fun q => exBind (meanLoop A ks) (fun qs => .ok (q :: qs)))

/-- Embeds `attr_df[cols[i]] = mean_value` (line 245 of soil.py): a pandas
column assignment overwrites an existing column of that name in place and
otherwise appends a new column at the end. -/
def setCol (d : DF) (nm : Name) (v : List ℚ) : DF :=
  if d.cols.any (fun c => decide (c.name = nm)) then
    ⟨d.nrows, d.cols.map (fun c => if c.name = nm then ⟨nm, v⟩ else c)⟩
  else ⟨d.nrows, d.cols ++ [⟨nm, v⟩]⟩

/-- Embeds one iteration of the property loop (lines 234-245 of soil.py);
`filterCols d p` is the Python local `attr_`, and its column count is the
second component of `attr_.shape`. -/
def processProp (d : DF) (n : Nat) (p : Name) : Except Unit DF :=
  exBind
    (layerLoop (filterCols d p) n (filterCols d p).cols.length [1, 2, 3, 4, 5, 6, 7]
      (zerosMat n (filterCols d p).cols.length))
    (fun A => exBind (meanLoop A (List.range n)) (fun means => .ok (setCol d p means)))

/-- The property loop `for i in range(len(cols))` of lines 234-245 of soil.py. -/
def propsLoop (n : Nat) : List Name → DF → Except Unit DF
  | [], d => .ok d
  | p :: ps, d => exBind (processProp d n p) (fun d' => propsLoop n ps d')

/-- Embeds `all_soil_depth_mean_weight_in_soilgrids250` (lines 214-246 of
soil.py).  The returned `Except` is `.error ()` exactly when the Python
function raises. -/
def all_soil_depth_mean_weight_in_soilgrids250 (attr_df : DF) : Except Unit DF :=
  propsLoop attr_df.nrows (detectedProps attr_df) attr_df

/-- The seven layer indices `range(1, 8)` of line 239 of soil.py. -/
def jseven : List Nat := [1, 2, 3, 4, 5, 6, 7]

/-- The depth boundaries of the specification's Depth Interval Set. -/
def specDepths : List ℚ := [0, 5, 15, 30, 60, 100, 200]

/-- The specification's aggregation formula: the thickness-weighted trapezoidal
integral over the six depth intervals, divided by the total depth 200, applied
to the layer values `v 1, ..., v 7`. -/
def specAgg (v : Nat → ℚ) : ℚ :=
  (∑ i in Finset.range 6,
    (specDepths.getD (i + 1) 0 - specDepths.getD i 0) * (v (i + 1) + v (i + 2)) / 2) / 200

/-- Number of occurrences of the name `nm` in a list of names. -/
def cntN (l : List Name) (nm : Name) : Nat :=
  (l.filter (fun c => decide (c = nm))).length

/-- Well-formedness of a table: every column has the index's length. -/
def HWf (d : DF) : Prop := ∀ c ∈ d.cols, c.vals.length = d.nrows

/-- Each detected property has exactly its seven layer columns
`{p}_sl1 .. {p}_sl7`, each appearing exactly once. -/
def HLayers (d : DF) : Prop :=
  ∀ p ∈ detectedProps d, ∀ j ∈ jseven, cntN (d.cols.map Col.name) (layerName p j) = 1

/-- No detected property's name occurs as a substring of any unrelated column
name (a column name that is not one of that property's seven layer columns). -/
def HUnrel (d : DF) : Prop :=
  ∀ p ∈ detectedProps d, ∀ c ∈ d.cols.map Col.name,
    (∀ j ∈ jseven, c ≠ layerName p j) → occursIn p c = false

/-- No layer tag `sl1 .. sl7` occurs as a substring of a detected property's
name. -/
def HTags (d : DF) : Prop :=
  ∀ p ∈ detectedProps d, ∀ j ∈ jseven, occursIn (slTag j) p = false

instance (d : DF) : Decidable (HWf d) :=
  inferInstanceAs (Decidable (∀ c ∈ d.cols, c.vals.length = d.nrows))

instance (d : DF) : Decidable (HLayers d) :=
  inferInstanceAs (Decidable (∀ p ∈ detectedProps d, ∀ j ∈ jseven,
    cntN (d.cols.map Col.name) (layerName p j) = 1))

instance (d : DF) : Decidable (HUnrel d) :=
  inferInstanceAs (Decidable (∀ p ∈ detectedProps d, ∀ c ∈ d.cols.map Col.name,
    (∀ j ∈ jseven, c ≠ layerName p j) → occursIn p c = false))

instance (d : DF) : Decidable (HTags d) :=
  inferInstanceAs (Decidable (∀ p ∈ detectedProps d, ∀ j ∈ jseven,
    occursIn (slTag j) p = false))

instance {α : Type} [DecidableEq α] : DecidableEq (Except Unit α) := fun a b =>
  match a, b with
  | .ok x, .ok y => decidable_of_iff (x = y) (by simp)
  | .error x, .error y => decidable_of_iff (x = y) (by simp)
  | .ok _, .error _ => .isFalse (by simp)
  | .error _, .ok _ => .isFalse (by simp)

instance : DecidableEq (List (Name × Name) × List (Name × Name)) :=
  instDecidableEqProd

instance : DecidableEq (List (Name × ℚ) × List (Name × Name) × List (Name × Name)) :=
  instDecidableEqProd

/-- A variable of a NetCDF file: its identifier, its (scalar stand-in) value,
and its optional `longname`, `long_name` and `units` attributes. -/
structure NcVar where
  name : Name
  val : ℚ
  longname : Option Name
  long_name : Option Name
  units : Option Name
deriving DecidableEq

/-- A readable NetCDF file: its list of variables. -/
structure NcFile where
  vars : List NcVar
deriving DecidableEq

/-- The message printed at line 106 of soil.py: `f"File corrupted: {ncfile}"`. -/
def corruptedMsg (path : Name) : Name :=
  ['F', 'i', 'l', 'e', ' ', 'c', 'o', 'r', 'r', 'u', 'p', 't', 'e', 'd', ':', ' '] ++ path

/-- Embeds line 91 of soil.py: `{x: file[x][()] for x in file.variables}`. -/
def readVars (vs : List NcVar) : List (Name × ℚ) := vs.map (fun v => (v.name, v.val))

/-- The description of a variable as lines 95-98 of soil.py access it: the
`longname` attribute when present, and otherwise the `long_name` attribute
(`none` when both spellings are absent — the case in which line 98 raises
`AttributeError`). -/
def descOf (v : NcVar) : Option Name :=
  match v.longname with
  | some s => some s
  | none => v.long_name

/-- Embeds lines 93-98 of soil.py: for each variable take the `longname`
attribute when present and otherwise access `long_name` — an access that
raises `AttributeError` (uncaught: line 105 catches only `IOError`) when both
attribute spellings are absent. -/
def readLongnames : List NcVar → Except Unit (List (Name × Name))
  | [] => .ok []
  | v :: vs =>
    match descOf v with
    | some s => exBind (readLongnames vs) (fun rest => .ok ((v.name, s) :: rest))
    | none => .error ()

/-- Tests whether every variable of the file carries one of the two
description attribute spellings. -/
def hasAllDesc (f : NcFile) : Bool :=
  f.vars.all (fun v => v.longname.isSome || v.long_name.isSome)

/-- Embeds lines 99-102 of soil.py: a variable without a `units` attribute
simply contributes no entry. -/
def readUnits : List NcVar → List (Name × Name)
  | [] => []
  | v :: vs =>
    match v.units with
    | some u => (v.name, u) :: readUnits vs
    | none => readUnits vs

/-- Embeds `read_nc_data` (lines 72-106 of soil.py).  The input is the file's
path together with its parsed content, `none` when the file cannot be opened
(the `IOError` case).  The result pairs the lines printed to stdout with the
function's return value: `none` models Python's implicit `return None` after
the `except IOError` handler, and `.error ()` models an uncaught exception. -/
def read_nc_data (path : Name) :
    Option NcFile →
      Except Unit (List Name × Option (List (Name × ℚ) × List (Name × Name) × List (Name × Name)))
  | none => .ok ([corruptedMsg path], none)
  | some f =>
    match readLongnames f.vars with
    | .ok ln => .ok ([], some (readVars f.vars, ln, readUnits f.vars))
    | .error e => .error e

/-- Embeds `nc_var_description` (lines 109-110 of soil.py):
`read_nc_data(ncfile)[1]`.  When `read_nc_data` returned `None` (corrupted
file), subscripting `None` raises `TypeError`, modelled as `.error ()`. -/
def nc_var_description (path : Name) (content : Option NcFile) :
    Except Unit (List (Name × Name)) :=
  match read_nc_data path content with
  | .ok (_, some t) => .ok t.2.1
  | .ok (_, none) => .error ()
  | .error e => .error e

/-- All cells of a two-dimensional grid, in row-major order. -/
def cellsOf (A : List (List ℚ)) : List ℚ := A.foldr (fun r acc => r ++ acc) []

/-- Embeds `data.min()` for the grid read at line 207 of soil.py (`0` for the
degenerate empty grid, on which numpy would raise instead). -/
def gridMin (A : List (List ℚ)) : ℚ :=
  match cellsOf A with
  | [] => 0
  | x :: xs => xs.foldl min x

/-- Embeds line 208 of soil.py, the sentinel remap performed by `binary2tif`
before downsampling: `data[data == data.min()] = -9999`. -/
def binary2tif_remap (A : List (List ℚ)) : List (List ℚ) :=
  A.map (fun row => row.map (fun x => if x = gridMin A then -9999 else x))

/-- Tests whether some cell of the grid holds the value `v`. -/
def gridHasCell (A : List (List ℚ)) (v : ℚ) : Bool :=
  (cellsOf A).any (fun x => decide (x = v))

/-- A Python heap holding `pandas.DataFrame` objects, indexed by reference. -/
def Store : Type := Nat → DF

/-- One iteration of the property loop acting on the heap: every column
assignment `attr_df[cols[i]] = mean_value` (line 245 of soil.py) writes
through the reference `r` that was passed as the function argument. -/
def processPropRef (r : Nat) (n : Nat) (σ : Store) (p : Name) : Except Unit Store :=
  exBind (processProp (σ r) n p) (fun d => .ok (fun q => if q = r then d else σ q))

/-- The reference-level loop over the detected properties. -/
def propsLoopRef (r : Nat) (n : Nat) : List Name → Store → Except Unit Store
  | [], σ => .ok σ
  | p :: ps, σ => exBind (processPropRef r n σ p) (fun σ' => propsLoopRef r n ps σ')

/-- Heap-level embedding of `all_soil_depth_mean_weight_in_soilgrids250`: the
argument is a reference `r` into the store; all column assignments mutate the
object at `r`, and `return attr_df` (line 246 of soil.py) returns that very
reference. -/
def all_soil_ref (σ : Store) (r : Nat) : Except Unit (Store × Nat) :=
  exBind (propsLoopRef r ((σ r).nrows) (detectedProps (σ r)) σ) (fun σ' => .ok (σ', r))

/-- The property name `x` of the specification's synthetic test table. -/
def pX : Name := ['x']

/-- A one-row column. -/
def colOf (nm : Name) (v : ℚ) : Col := ⟨nm, [v]⟩

/-- The specification's synthetic single-row table: `x_sl1 .. x_sl7` hold
`[0, 10, 20, 30, 40, 50, 60]`. -/
def cdf2 : DF :=
  ⟨1, [colOf (layerName pX 1) 0, colOf (layerName pX 2) 10, colOf (layerName pX 3) 20,
       colOf (layerName pX 4) 30, colOf (layerName pX 5) 40, colOf (layerName pX 6) 50,
       colOf (layerName pX 7) 60]⟩

/-- The table produced from `cdf2`: all layer columns retained, the aggregate
column `x` appended. -/
def cdf2out : DF := ⟨1, cdf2.cols ++ [⟨pX, [89 / 2]⟩]⟩

/-- The same synthetic table with its seven layer columns shuffled. -/
def cdf1 : DF :=
  ⟨1, [colOf (layerName pX 2) 10, colOf (layerName pX 7) 60, colOf (layerName pX 1) 0,
       colOf (layerName pX 4) 30, colOf (layerName pX 3) 20, colOf (layerName pX 6) 50,
       colOf (layerName pX 5) 40]⟩

/-- A property whose name `asl2` contains the layer tag `sl2`. -/
def pA : Name := ['a', 's', 'l', '2']

/-- A single-row table holding exactly the seven layer columns of the
property `asl2`. -/
def cdfA : DF :=
  ⟨1, [colOf (layerName pA 1) 1, colOf (layerName pA 2) 2, colOf (layerName pA 3) 3,
       colOf (layerName pA 4) 4, colOf (layerName pA 5) 5, colOf (layerName pA 6) 6,
       colOf (layerName pA 7) 7]⟩

/-- The stray column name `x_sl44`. -/
def nmSl44 : Name := ['x', '_', 's', 'l', '4', '4']

/-- A single-row table for property `x` whose layer column `x_sl4` is absent,
with a stray column `x_sl44` in its place. -/
def cdf44 : DF :=
  ⟨1, [colOf (layerName pX 1) 0, colOf (layerName pX 2) 10, colOf (layerName pX 3) 20,
       colOf nmSl44 999, colOf (layerName pX 5) 40, colOf (layerName pX 6) 50,
       colOf (layerName pX 7) 60]⟩

/-- A single-row table for property `x` whose layer column `x_sl4` is absent
(six layer columns only). -/
def cdf4m : DF :=
  ⟨1, [colOf (layerName pX 1) 0, colOf (layerName pX 2) 10, colOf (layerName pX 3) 20,
       colOf (layerName pX 5) 40, colOf (layerName pX 6) 50, colOf (layerName pX 7) 60]⟩

/-- The property name `sand`. -/
def pSand : Name := ['s', 'a', 'n', 'd']

/-- The property name `sandy`; `sand` is a substring of every `sandy_sl*`
column name. -/
def pSandy : Name := ['s', 'a', 'n', 'd', 'y']

/-- A single-row table holding all seven layer columns of both `sand` and
`sandy`. -/
def cdfS : DF :=
  ⟨1, [colOf (layerName pSand 1) 1, colOf (layerName pSand 2) 2, colOf (layerName pSand 3) 3,
       colOf (layerName pSand 4) 4, colOf (layerName pSand 5) 5, colOf (layerName pSand 6) 6,
       colOf (layerName pSand 7) 7,
       colOf (layerName pSandy 1) 1, colOf (layerName pSandy 2) 2, colOf (layerName pSandy 3) 3,
       colOf (layerName pSandy 4) 4, colOf (layerName pSandy 5) 5, colOf (layerName pSandy 6) 6,
       colOf (layerName pSandy 7) 7]⟩

/-- A full-size 21600 × 43200 grid whose cells all hold the value `7`. -/
def gridAllSeven : List (List ℚ) := List.replicate 21600 (List.replicate 43200 7)

/-- A file path used in concrete instances. -/
def pthN : Name := ['f']

/-- A second file path used in concrete instances. -/
def pth2 : Name := ['g']

/-- A one-variable NetCDF file whose variable `t` has a `longname` attribute
but no `units` attribute. -/
def fUnitless : NcFile := ⟨[⟨['t'], 0, some ['T'], none, none⟩]⟩

/-- A two-variable NetCDF file: `t` carries `longname` and `units`, while `u`
carries only the alternative spelling `long_name` and no `units`. -/
def fTwoVars : NcFile :=
  ⟨[⟨['t'], 0, some ['T'], none, some ['K']⟩, ⟨['u'], 1, none, some ['U'], none⟩]⟩

end CatchAttr

namespace CatchAttr

lemma leadsWith_iff : ∀ (p s : Name), leadsWith p s = true ↔ ∃ t, s = p ++ t
  | [], s => by simp [leadsWith]
  | _ :: _, [] => by simp [leadsWith]
  | a :: p, b :: s => by
    simp only [leadsWith, Bool.and_eq_true, beq_iff_eq, leadsWith_iff p s, List.cons_append]
    constructor
    · rintro ⟨rfl, t, rfl⟩
      exact ⟨t, rfl⟩
    · rintro ⟨t, h⟩
      injection h with h1 h2
      exact ⟨h1.symm, t, h2⟩

lemma occursIn_iff : ∀ (p s : Name), occursIn p s = true ↔ ∃ l t, s = l ++ p ++ t
  | p, [] => by
    rw [occursIn, leadsWith_iff]
    constructor
    · rintro ⟨t, ht⟩
      exact ⟨[], t, by simpa using ht⟩
    · rintro ⟨l, t, h⟩
      cases l with
      | nil => exact ⟨t, by simpa using h⟩
      | cons x l => simp at h
  | p, b :: s => by
    rw [occursIn]
    simp only [Bool.or_eq_true, leadsWith_iff, occursIn_iff p s]
    constructor
    · rintro (⟨t, ht⟩ | ⟨l, t, ht⟩)
      · exact ⟨[], t, by simpa using ht⟩
      · exact ⟨b :: l, t, by simp [ht]⟩
    · rintro ⟨l, t, ht⟩
      cases l with
      | nil => exact .inl ⟨t, by simpa using ht⟩
      | cons x l =>
        injection ht with h1 h2
        exact .inr ⟨l, t, h2⟩

lemma occursIn_of_parts (p l t : Name) : occursIn p (l ++ p ++ t) = true :=
  (occursIn_iff _ _).2 ⟨l, t, rfl⟩

lemma occursIn_refl (p : Name) : occursIn p p = true := by
  simpa using occursIn_of_parts p [] []

lemma occursIn_append_right (p s u : Name) (h : occursIn p s = true) :
    occursIn p (s ++ u) = true := by
  obtain ⟨l, t, rfl⟩ := (occursIn_iff _ _).1 h
  exact (occursIn_iff _ _).2 ⟨l, t ++ u, by simp⟩

lemma occursIn_length_le (p s : Name) (h : occursIn p s = true) : p.length ≤ s.length := by
  obtain ⟨l, t, rfl⟩ := (occursIn_iff _ _).1 h
  simp
  omega

lemma occursIn_eq_of_length (p s : Name) (h : occursIn p s = true)
    (hl : s.length = p.length) : p = s := by
  obtain ⟨l, t, rfl⟩ := (occursIn_iff _ _).1 h
  simp at hl
  have hl0 : l = [] := List.eq_nil_of_length_eq_zero (by omega)
  have ht0 : t = [] := List.eq_nil_of_length_eq_zero (by omega)
  simp [hl0, ht0]

lemma leadsWith_under : ∀ (p x y : Name), '_' ∉ p →
    leadsWith p (x ++ '_' :: y) = true → leadsWith p x = true
  | [], _, _, _, _ => rfl
  | a :: p, [], y, hp, h => by
    simp only [List.nil_append, leadsWith, Bool.and_eq_true, beq_iff_eq] at h
    exact absurd (h.1 ▸ List.mem_cons_self a p) hp
  | a :: p, b :: x, y, hp, h => by
    simp only [List.cons_append, leadsWith, Bool.and_eq_true, beq_iff_eq] at h ⊢
    exact ⟨h.1, leadsWith_under p x y (fun hm => hp (List.mem_cons_of_mem _ hm)) h.2⟩

lemma occursIn_under : ∀ (x : Name) (p y : Name), '_' ∉ p →
    occursIn p (x ++ '_' :: y) = true → occursIn p x = true ∨ occursIn p y = true
  | [], p, y, hp, h => by
    rw [List.nil_append, occursIn] at h
    rcases Bool.or_eq_true_iff.1 h with h1 | h2
    · cases p with
      | nil => exact .inl rfl
      | cons a p =>
        simp only [leadsWith, Bool.and_eq_true, beq_iff_eq] at h1
        exact absurd (h1.1 ▸ List.mem_cons_self a p) hp
    · exact .inr h2
  | b :: x, p, y, hp, h => by
    rw [List.cons_append, occursIn] at h
    rcases Bool.or_eq_true_iff.1 h with h1 | h2
    · left
      rw [occursIn]
      exact Bool.or_eq_true_iff.2 (.inl (leadsWith_under p (b :: x) y hp h1))
    · rcases occursIn_under x p y hp h2 with h3 | h3
      · left
        rw [occursIn]
        exact Bool.or_eq_true_iff.2 (.inr h3)
      · exact .inr h3

lemma splitHead_not_under : ∀ (s : Name), '_' ∉ splitHead s
  | [] => by simp [splitHead]
  | c :: t => by
    rw [splitHead]
    split
    · simp
    · intro hm
      rcases List.mem_cons.1 hm with rfl | hm
      · exact absurd rfl (by assumption)
      · exact splitHead_not_under t hm

lemma splitHead_app : ∀ (p : Name) (r : Name), '_' ∉ p → splitHead (p ++ '_' :: r) = p
  | [], r, _ => by simp [splitHead]
  | a :: p, r, hp => by
    rw [List.cons_append, splitHead]
    have ha : ¬(a = '_') := fun h => hp (h ▸ List.mem_cons_self a p)
    rw [if_neg ha, splitHead_app p r (fun hm => hp (List.mem_cons_of_mem _ hm))]

lemma splitHead_decomp : ∀ (s : Name), s = splitHead s ∨ ∃ t, s = splitHead s ++ '_' :: t
  | [] => .inl rfl
  | c :: t => by
    rw [splitHead]
    split
    · subst c
      exact .inr ⟨t, rfl⟩
    · rcases splitHead_decomp t with h | ⟨t', h⟩
      · exact .inl (by rw [← h])
      · exact .inr ⟨t', by rw [List.cons_append, ← h]⟩

lemma occursIn_splitHead (s : Name) : occursIn (splitHead s) s = true := by
  rcases splitHead_decomp s with h | ⟨t, h⟩
  · exact (occursIn_iff _ _).2 ⟨[], [], by simpa using h⟩
  · exact (occursIn_iff _ _).2 ⟨[], '_' :: t, by simpa using h⟩

lemma under_prefix_cancel : ∀ (p q a b : Name), '_' ∉ p → '_' ∉ q →
    p ++ '_' :: a = q ++ '_' :: b → p = q ∧ a = b
  | [], [], a, b, _, _, h => by
    injection h with _ h2
    exact ⟨rfl, h2⟩
  | [], c :: q, a, b, _, hq, h => by
    rw [List.nil_append, List.cons_append] at h
    injection h with h1 _
    exact absurd (h1 ▸ List.mem_cons_self c q) hq
  | c :: p, [], a, b, hp, _, h => by
    rw [List.cons_append, List.nil_append] at h
    injection h with h1 _
    exact absurd (h1.symm ▸ List.mem_cons_self c p) hp
  | c :: p, c' :: q, a, b, hp, hq, h => by
    rw [List.cons_append, List.cons_append] at h
    injection h with h1 h2
    obtain ⟨h3, h4⟩ := under_prefix_cancel p q a b
      (fun hm => hp (List.mem_cons_of_mem _ hm)) (fun hm => hq (List.mem_cons_of_mem _ hm)) h2
    exact ⟨by rw [h1, h3], h4⟩

lemma slTag_not_under : ∀ j ∈ jseven, '_' ∉ slTag j := by decide

lemma slTag_inj : ∀ j ∈ jseven, ∀ k ∈ jseven, slTag j = slTag k → j = k := by decide

lemma occursIn_tag_tag (j k : Nat) (hj : j ∈ jseven) (hk : k ∈ jseven)
    (h : occursIn (slTag j) (slTag k) = true) : j = k :=
  slTag_inj j hj k hk (occursIn_eq_of_length _ _ h rfl)

lemma tag_in_layerName (p : Name) (hp3 : ∀ j' ∈ jseven, occursIn (slTag j') p = false)
    (j k : Nat) (hj : j ∈ jseven) (hk : k ∈ jseven)
    (h : occursIn (slTag j) (layerName p k) = true) : j = k := by
  rcases occursIn_under p (slTag j) (slTag k) (slTag_not_under j hj) h with h1 | h1
  · rw [hp3 j hj] at h1
    exact absurd h1 (by simp)
  · exact occursIn_tag_tag j k hj hk h1

lemma layerName_tag_self (p : Name) (j : Nat) : occursIn (slTag j) (layerName p j) = true := by
  have : layerName p j = (p ++ ['_']) ++ slTag j ++ [] := by simp [layerName]
  rw [this]
  exact occursIn_of_parts _ _ _

lemma occursIn_p_layerName (p : Name) (j : Nat) : occursIn p (layerName p j) = true := by
  have : layerName p j = [] ++ p ++ '_' :: slTag j := by simp [layerName]
  rw [this]
  exact occursIn_of_parts _ _ _

lemma layerName_ne_self (p : Name) (j : Nat) : p ≠ layerName p j := by
  intro h
  have := congrArg List.length h
  simp [layerName, slTag] at this

lemma layerName_inj (p : Name) (j k : Nat) (hj : j ∈ jseven) (hk : k ∈ jseven)
    (h : layerName p j = layerName p k) : j = k := by
  rw [layerName, layerName] at h
  have h2 : '_' :: slTag j = '_' :: slTag k := List.append_cancel_left h
  injection h2 with _ h3
  exact slTag_inj j hj k hk h3

lemma layerName_cross (p q : Name) (hp : '_' ∉ p) (hq : '_' ∉ q) (j k : Nat)
    (h : layerName p j = layerName q k) : p = q ∧ slTag j = slTag k := by
  rw [layerName, layerName] at h
  obtain ⟨h1, h2⟩ := under_prefix_cancel p q _ _ hp hq h
  exact ⟨h1, h2⟩

end CatchAttr

namespace CatchAttr

lemma cntN_nil (nm : Name) : cntN [] nm = 0 := rfl

lemma cntN_cons (c : Name) (l : List Name) (nm : Name) :
    cntN (c :: l) nm = (if c = nm then 1 else 0) + cntN l nm := by
  rw [cntN, List.filter_cons]
  by_cases h : c = nm
  · simp [h, cntN, Nat.add_comm]
  · simp [h, cntN]

lemma cntN_pos (l : List Name) (nm : Name) : nm ∈ l ↔ 0 < cntN l nm := by
  induction l with
  | nil => simp [cntN_nil]
  | cons c l ih =>
    rw [cntN_cons, List.mem_cons]
    by_cases h : c = nm
    · simp [h]
    · have : ¬(nm = c) := fun hh => h hh.symm
      simp [h, this, ih]

lemma cntN_filter_le (l : List Name) (q : Name → Bool) (nm : Name) :
    cntN (l.filter q) nm ≤ cntN l nm := by
  induction l with
  | nil => simp [cntN_nil]
  | cons c l ih =>
    rw [List.filter_cons, cntN_cons]
    by_cases hq : q c
    · rw [if_pos hq, cntN_cons]
      omega
    · rw [if_neg hq]
      omega

lemma nodup_of_cnt (l : List Name) (h : ∀ nm ∈ l, cntN l nm ≤ 1) : l.Nodup := by
  induction l with
  | nil => simp
  | cons a l ih =>
    rw [List.nodup_cons]
    constructor
    · intro hmem
      have h1 := h a (List.mem_cons_self a l)
      rw [cntN_cons, if_pos rfl] at h1
      have h2 : 0 < cntN l a := (cntN_pos _ _).1 hmem
      omega
    · refine ih (fun nm hnm => ?_)
      have h1 := h nm (List.mem_cons_of_mem _ hnm)
      rw [cntN_cons] at h1
      split at h1 <;> omega

lemma len_filter_or (cols : List Col) (P Q : Col → Bool)
    (h : ∀ c ∈ cols, ¬(P c = true ∧ Q c = true)) :
    (cols.filter (fun c => P c || Q c)).length =
      (cols.filter P).length + (cols.filter Q).length := by
  induction cols with
  | nil => simp
  | cons c cols ih =>
    have hc := h c (List.mem_cons_self c cols)
    have ih' := ih (fun c' hc' => h c' (List.mem_cons_of_mem _ hc'))
    rw [List.filter_cons, List.filter_cons, List.filter_cons]
    cases hP : P c <;> cases hQ : Q c <;> simp_all <;> omega

lemma len_filter_name (cols : List Col) (nm : Name) :
    (cols.filter (fun c => decide (c.name = nm))).length = cntN (cols.map Col.name) nm := by
  induction cols with
  | nil => simp [cntN_nil]
  | cons c cols ih =>
    rw [List.filter_cons, List.map_cons, cntN_cons]
    by_cases h : c.name = nm
    · rw [if_pos (by simp [h]), if_pos h, List.length_cons, ih]
      omega
    · simp [h, ih]

lemma filter_name_nil (cols : List Col) (nm : Name)
    (h : cntN (cols.map Col.name) nm = 0) :
    cols.filter (fun c => decide (c.name = nm)) = [] := by
  have := len_filter_name cols nm
  rw [h] at this
  exact List.eq_nil_of_length_eq_zero this

lemma filter_name_single (cols : List Col) (nm : Name)
    (h : cntN (cols.map Col.name) nm = 1) :
    ∃ c, cols.filter (fun c => decide (c.name = nm)) = [c] ∧ c.name = nm ∧
      cols.find? (fun c => decide (c.name = nm)) = some c := by
  induction cols with
  | nil => simp [cntN_nil] at h
  | cons c cols ih =>
    rw [List.map_cons, cntN_cons] at h
    by_cases hc : c.name = nm
    · rw [if_pos hc] at h
      have h0 : cntN (cols.map Col.name) nm = 0 := by omega
      refine ⟨c, ?_, hc, ?_⟩
      · rw [List.filter_cons, if_pos (by simpa using hc), filter_name_nil cols nm h0]
      · exact List.find?_cons_of_pos _ (by simpa using hc)
    · rw [if_neg hc, Nat.zero_add] at h
      obtain ⟨c', h1, h2, h3⟩ := ih h
      refine ⟨c', ?_, h2, ?_⟩
      · rw [List.filter_cons, if_neg (by simpa using hc)]
        exact h1
      · rw [List.find?_cons_of_neg _ (by simpa using hc)]
        exact h3

lemma filter_filter_own (l : List Col) (p q : Col → Bool) :
    (l.filter p).filter q = l.filter (fun c => p c && q c) := by
  induction l with
  | nil => simp
  | cons c l ih =>
    rw [List.filter_cons, List.filter_cons]
    cases hp : p c <;> cases hq : q c <;> simp [hp, hq, List.filter_cons, ih]

lemma filter_congr_own (l : List Col) (p q : Col → Bool) (h : ∀ c ∈ l, p c = q c) :
    l.filter p = l.filter q := by
  induction l with
  | nil => simp
  | cons c l ih =>
    have hc := h c (List.mem_cons_self c l)
    have ih' := ih (fun c' hc' => h c' (List.mem_cons_of_mem _ hc'))
    rw [List.filter_cons, List.filter_cons, hc, ih']

lemma map_congr_own {α β : Type} (l : List α) (f g : α → β) (h : ∀ a ∈ l, f a = g a) :
    l.map f = l.map g := by
  induction l with
  | nil => simp
  | cons c l ih =>
    rw [List.map_cons, List.map_cons, h c (List.mem_cons_self c l),
      ih (fun c' hc' => h c' (List.mem_cons_of_mem _ hc'))]

lemma len_filter_mem : ∀ (nms : List Name) (cols : List Col), nms.Nodup →
    (cols.filter (fun c => decide (c.name ∈ nms))).length =
      (nms.map (fun nm => cntN (cols.map Col.name) nm)).sum
  | [], cols, _ => by
    rw [filter_congr_own cols _ (fun _ => false) (by simp)]
    simp
  | nm :: nms, cols, hnd => by
    rw [List.nodup_cons] at hnd
    have hstep : ∀ c ∈ cols, (decide (c.name ∈ nm :: nms)) =
        (decide (c.name = nm) || decide (c.name ∈ nms)) := by
      intro c _
      simp [List.mem_cons]
    rw [filter_congr_own cols _ _ hstep,
      len_filter_or cols _ _ (fun c _ hand => hnd.1 (by
        have h1 : c.name = nm := of_decide_eq_true hand.1
        have h2 : c.name ∈ nms := of_decide_eq_true hand.2
        exact h1 ▸ h2)),
      len_filter_name, List.map_cons, List.sum_cons, len_filter_mem nms cols hnd.2]

end CatchAttr

namespace CatchAttr

lemma bfalse (b : Bool) (h : ¬b = true) : b = false := by
  cases b
  · rfl
  · exact absurd rfl h

lemma detect_mem (d : DF) (c : Name) (hc : c ∈ d.cols.map Col.name)
    (hocc : occursIn (slTag 1) c = true) : splitHead c ∈ detectedProps d :=
  List.mem_map.2 ⟨c, List.mem_filter.2 ⟨hc, hocc⟩, rfl⟩

lemma classify_col (d : DF) (h2 : HUnrel d) (p : Name) (hp : p ∈ detectedProps d)
    (c : Name) (hc : c ∈ d.cols.map Col.name) (hocc : occursIn p c = true) :
    ∃ j ∈ jseven, c = layerName p j := by
  by_contra hno
  push_neg at hno
  rw [h2 p hp c hc hno] at hocc
  exact absurd hocc (by simp)

lemma sl1_col_struct (d : DF) (h2 : HUnrel d) (h3 : HTags d) (c : Name)
    (hc : c ∈ d.cols.map Col.name) (hocc : occursIn (slTag 1) c = true) :
    c = layerName (splitHead c) 1 ∧ splitHead c ∈ detectedProps d := by
  have hpP := detect_mem d c hc hocc
  obtain ⟨j, hj, hcj⟩ := classify_col d h2 _ hpP c hc (occursIn_splitHead c)
  have h1j : 1 = j := tag_in_layerName _ (fun j' hj' => h3 _ hpP j' hj') 1 j (by decide) hj
    (hcj ▸ hocc)
  subst h1j
  exact ⟨hcj, hpP⟩

lemma detect_under (d : DF) (p : Name) (hp : p ∈ detectedProps d) : '_' ∉ p := by
  obtain ⟨c, _, rfl⟩ := List.mem_map.1 hp
  exact splitHead_not_under c

lemma detect_layer1_mem (d : DF) (h2 : HUnrel d) (h3 : HTags d) (p : Name)
    (hp : p ∈ detectedProps d) : layerName p 1 ∈ d.cols.map Col.name := by
  obtain ⟨c, hcF, rfl⟩ := List.mem_map.1 hp
  have hcm := List.mem_filter.1 hcF
  have hstr := (sl1_col_struct d h2 h3 c hcm.1 hcm.2).1
  rw [← hstr]
  exact hcm.1

lemma detect_nodup (d : DF) (h1 : HLayers d) (h2 : HUnrel d) (h3 : HTags d) :
    (detectedProps d).Nodup := by
  have hFstruct : ∀ c ∈ (d.cols.map Col.name).filter (fun c => occursIn (slTag 1) c),
      c = layerName (splitHead c) 1 ∧ splitHead c ∈ detectedProps d := by
    intro c hcF
    have hcm := List.mem_filter.1 hcF
    exact sl1_col_struct d h2 h3 c hcm.1 hcm.2
  have hFnodup : ((d.cols.map Col.name).filter (fun c => occursIn (slTag 1) c)).Nodup := by
    apply nodup_of_cnt
    intro nm hnm
    obtain ⟨hstr, hPP⟩ := hFstruct nm hnm
    have hle := cntN_filter_le (d.cols.map Col.name) (fun c => occursIn (slTag 1) c) nm
    have hone := h1 _ hPP 1 (by decide)
    rw [← hstr] at hone
    omega
  exact List.Nodup.map_on
    (fun x hx y hy hxy => by rw [(hFstruct x hx).1, (hFstruct y hy).1, hxy]) hFnodup

lemma occ_prop_prop (d : DF) (h2 : HUnrel d) (h3 : HTags d) (p q : Name)
    (hp : p ∈ detectedProps d) (hq : q ∈ detectedProps d)
    (hocc : occursIn p q = true) : p = q := by
  have hql := detect_layer1_mem d h2 h3 q hq
  have hocc2 : occursIn p (layerName q 1) = true :=
    occursIn_append_right p q ('_' :: slTag 1) hocc
  obtain ⟨j, hj, hEq⟩ := classify_col d h2 p hp _ hql hocc2
  obtain ⟨hqp, _⟩ := layerName_cross q p (detect_under d q hq) (detect_under d p hp) 1 j hEq
  exact hqp.symm

lemma notin_names (d : DF) (h2 : HUnrel d) (p : Name) (hp : p ∈ detectedProps d) :
    ∀ c ∈ d.cols, c.name ≠ p := by
  intro c hc hEq
  have hcm : c.name ∈ d.cols.map Col.name := List.mem_map.2 ⟨c, hc, rfl⟩
  obtain ⟨j, hj, hcj⟩ := classify_col d h2 p hp c.name hcm (by rw [hEq]; exact occursIn_refl p)
  exact layerName_ne_self p j (hEq ▸ hcj)

lemma seven_filter (d : DF) (h1 : HLayers d) (h2 : HUnrel d) (_h3 : HTags d) (p : Name)
    (hp : p ∈ detectedProps d) : (filterCols d p).cols.length = 7 := by
  have hnodup7 : (jseven.map (layerName p)).Nodup :=
    List.Nodup.map_on (fun x hx y hy hxy => layerName_inj p x y hx hy hxy)
      (by decide : jseven.Nodup)
  have hpred : ∀ c ∈ d.cols,
      (occursIn p c.name) = decide (c.name ∈ jseven.map (layerName p)) := by
    intro c hc
    have hcm : c.name ∈ d.cols.map Col.name := List.mem_map.2 ⟨c, hc, rfl⟩
    by_cases hocc : occursIn p c.name = true
    · obtain ⟨j, hj, hcj⟩ := classify_col d h2 p hp _ hcm hocc
      have hmem : c.name ∈ jseven.map (layerName p) := List.mem_map.2 ⟨j, hj, hcj.symm⟩
      rw [hocc]
      exact (decide_eq_true hmem).symm
    · rw [bfalse _ hocc]
      symm
      rw [decide_eq_false_iff_not]
      intro hmem
      obtain ⟨j, hj, hcj⟩ := List.mem_map.1 hmem
      exact hocc (hcj ▸ occursIn_p_layerName p j)
  show (d.cols.filter (fun c => occursIn p c.name)).length = 7
  rw [filter_congr_own _ _ _ hpred, len_filter_mem _ _ hnodup7, List.map_map]
  show ([1, 2, 3, 4, 5, 6, 7].map
    (fun j => cntN (d.cols.map Col.name) (layerName p j))).sum = 7
  simp only [List.map_cons, List.map_nil, List.sum_cons, List.sum_nil]
  rw [h1 p hp 1 (by decide), h1 p hp 2 (by decide), h1 p hp 3 (by decide),
    h1 p hp 4 (by decide), h1 p hp 5 (by decide), h1 p hp 6 (by decide),
    h1 p hp 7 (by decide)]
  omega

lemma layer_single (d : DF) (h1 : HLayers d) (h2 : HUnrel d) (h3 : HTags d) (p : Name)
    (hp : p ∈ detectedProps d) (j : Nat) (hj : j ∈ jseven) :
    ∃ cj, (filterCols (filterCols d p) (slTag j)).cols = [cj] ∧
      cj.name = layerName p j ∧ cj ∈ d.cols ∧ lookupCol d (layerName p j) = cj.vals := by
  have hcomb : (filterCols (filterCols d p) (slTag j)).cols =
      d.cols.filter (fun c => decide (c.name = layerName p j)) := by
    show ((d.cols.filter _).filter _ : List Col) = _
    rw [filter_filter_own]
    apply filter_congr_own
    intro c hc
    have hcm : c.name ∈ d.cols.map Col.name := List.mem_map.2 ⟨c, hc, rfl⟩
    by_cases hocc : occursIn p c.name = true
    · obtain ⟨j', hj', hcj⟩ := classify_col d h2 p hp c.name hcm hocc
      by_cases hjj : occursIn (slTag j) c.name = true
      · have hjeq : j = j' :=
          tag_in_layerName p (fun jx hjx => h3 p hp jx hjx) j j' hj hj' (hcj ▸ hjj)
        subst hjeq
        simp [hcj, occursIn_p_layerName, layerName_tag_self]
      · have hne : ¬(c.name = layerName p j) := by
          intro hEq
          exact hjj (by rw [hEq]; exact layerName_tag_self p j)
        rw [hocc, bfalse _ hjj]
        simp [hne]
    · have hne : ¬(c.name = layerName p j) := by
        intro hEq
        exact hocc (by rw [hEq]; exact occursIn_p_layerName p j)
      rw [bfalse _ hocc]
      simp [hne]
  obtain ⟨cj, hfil, hnm, hfind⟩ := filter_name_single d.cols (layerName p j) (h1 p hp j hj)
  refine ⟨cj, by rw [hcomb, hfil], hnm, ?_, ?_⟩
  · exact List.mem_of_mem_filter (hfil ▸ List.mem_singleton_self cj)
  · rw [lookupCol, hfind]

end CatchAttr

namespace CatchAttr

lemma exBind_ok {α β : Type} (a : α) (f : α → Except Unit β) : exBind (.ok a) f = f a := rfl

lemma exBind_error {α β : Type} (f : α → Except Unit β) :
    exBind (.error ()) f = .error () := rfl

lemma exBind_error' {α β : Type} (e : Unit) (f : α → Except Unit β) :
    exBind (.error e) f = .error () := rfl

lemma take_succ_getD : ∀ (l : List ℚ) (r : Nat), r < l.length →
    l.take (r + 1) = l.take r ++ [l.getD r 0]
  | [], r, h => by simp at h
  | a :: l, 0, _ => by simp
  | a :: l, r + 1, h => by
    rw [List.take_succ_cons, List.take_succ_cons, take_succ_getD l r (by simpa using h),
      List.getD_cons_succ, List.cons_append]

lemma flattenAux_nil : ∀ r, flattenAux [] r = []
  | 0 => rfl
  | r + 1 => by simp [flattenAux, rowSlice, flattenAux_nil r]

lemma flattenAux_single (c : Col) : ∀ r, r ≤ c.vals.length →
    flattenAux [c] r = c.vals.take r
  | 0, _ => by simp [flattenAux]
  | r + 1, h => by
    rw [flattenAux, flattenAux_single c r (by omega), take_succ_getD c.vals r (by omega)]
    simp [rowSlice]

lemma flattenVals_single (c : Col) (n : Nat) (h : c.vals.length = n) :
    flattenVals ⟨n, [c]⟩ = c.vals := by
  show flattenAux [c] n = c.vals
  rw [flattenAux_single c n (by omega), ← h, List.take_length]

lemma layerStep_sel {attr1 : DF} {n : Nat} (m : Nat) {A : List (List ℚ)} {j : Nat} {cj : Col}
    (hsel : (filterCols attr1 (slTag j)).cols = [cj]) (hn : attr1.nrows = n)
    (hlen : cj.vals.length = n) (hjm : j - 1 < m) :
    layerStep attr1 n m A j = .ok (A.set (j - 1) cj.vals) := by
  have hdf : filterCols attr1 (slTag j) = ⟨n, [cj]⟩ := by
    conv_lhs => rw [show filterCols attr1 (slTag j) =
      ⟨(filterCols attr1 (slTag j)).nrows, (filterCols attr1 (slTag j)).cols⟩ from rfl]
    rw [hsel]
    show (⟨attr1.nrows, [cj]⟩ : DF) = _
    rw [hn]
  rw [layerStep, hdf, flattenVals_single cj n hlen, if_pos hjm, if_pos hlen]

lemma layerLoop_nil (attr1 : DF) (n m : Nat) (A : List (List ℚ)) :
    layerLoop attr1 n m [] A = .ok A := rfl

lemma layerLoop_cons_ok {attr1 : DF} {n m : Nat} {A A' : List (List ℚ)} {j : Nat}
    {js : List Nat} (h : layerStep attr1 n m A j = .ok A') :
    layerLoop attr1 n m (j :: js) A = layerLoop attr1 n m js A' := by
  rw [layerLoop, h, exBind_ok]

lemma layerLoop_run (attr1 : DF) (n : Nat) (w : Nat → Col)
    (hn : attr1.nrows = n)
    (hsel : ∀ j ∈ jseven, (filterCols attr1 (slTag j)).cols = [w j])
    (hlen : ∀ j ∈ jseven, (w j).vals.length = n) :
    layerLoop attr1 n 7 [1, 2, 3, 4, 5, 6, 7] (zerosMat n 7) =
      .ok [(w 1).vals, (w 2).vals, (w 3).vals, (w 4).vals, (w 5).vals,
           (w 6).vals, (w 7).vals] := by
  rw [layerLoop_cons_ok (layerStep_sel 7 (hsel 1 (by decide)) hn (hlen 1 (by decide)) (by omega)),
    layerLoop_cons_ok (layerStep_sel 7 (hsel 2 (by decide)) hn (hlen 2 (by decide)) (by omega)),
    layerLoop_cons_ok (layerStep_sel 7 (hsel 3 (by decide)) hn (hlen 3 (by decide)) (by omega)),
    layerLoop_cons_ok (layerStep_sel 7 (hsel 4 (by decide)) hn (hlen 4 (by decide)) (by omega)),
    layerLoop_cons_ok (layerStep_sel 7 (hsel 5 (by decide)) hn (hlen 5 (by decide)) (by omega)),
    layerLoop_cons_ok (layerStep_sel 7 (hsel 6 (by decide)) hn (hlen 6 (by decide)) (by omega)),
    layerLoop_cons_ok (layerStep_sel 7 (hsel 7 (by decide)) hn (hlen 7 (by decide)) (by omega)),
    layerLoop_nil]
  rfl

end CatchAttr

namespace CatchAttr

lemma heights_eq : heights = [5, 10, 15, 30, 40, 100] := by
  rw [heights, soil_depths]
  norm_num [List.zipWith]

lemma meanOfRow_spec (u : Nat → List ℚ) (k : Nat) :
    meanOfRow [u 1, u 2, u 3, u 4, u 5, u 6, u 7] k =
      .ok (specAgg (fun j => (u j).getD k 0)) := by
  have hpair : pairOf [u 1, u 2, u 3, u 4, u 5, u 6, u 7] k =
      [(u 1).getD k 0 + (u 2).getD k 0, (u 2).getD k 0 + (u 3).getD k 0,
       (u 3).getD k 0 + (u 4).getD k 0, (u 4).getD k 0 + (u 5).getD k 0,
       (u 5).getD k 0 + (u 6).getD k 0, (u 6).getD k 0 + (u 7).getD k 0] := rfl
  rw [meanOfRow, hpair, heights_eq, if_pos (by rfl)]
  congr 1

lemma meanLoop_run (A : List (List ℚ)) (g : Nat → ℚ) : ∀ (ks : List Nat),
    (∀ k ∈ ks, meanOfRow A k = .ok (g k)) → meanLoop A ks = .ok (ks.map g)
  | [], _ => rfl
  | k :: ks, h => by
    rw [meanLoop, h k (List.mem_cons_self k ks), exBind_ok,
      meanLoop_run A g ks (fun k' hk' => h k' (List.mem_cons_of_mem _ hk')), exBind_ok]
    rfl

lemma setCol_append (d : DF) (nm : Name) (v : List ℚ) (h : ∀ c ∈ d.cols, c.name ≠ nm) :
    setCol d nm v = ⟨d.nrows, d.cols ++ [⟨nm, v⟩]⟩ := by
  rw [setCol, if_neg]
  intro hany
  obtain ⟨c, hc, hdec⟩ := List.any_eq_true.1 hany
  exact h c hc (of_decide_eq_true hdec)

lemma processProp_run (dc : DF) (n : Nat) (p : Name) (w : Nat → Col)
    (hm : (filterCols dc p).cols.length = 7)
    (hn : dc.nrows = n)
    (hsel : ∀ j ∈ jseven, (filterCols (filterCols dc p) (slTag j)).cols = [w j])
    (hlen : ∀ j ∈ jseven, (w j).vals.length = n)
    (hnotin : ∀ c ∈ dc.cols, c.name ≠ p) :
    processProp dc n p =
      .ok ⟨n, dc.cols ++
        [⟨p, (List.range n).map (fun k => specAgg (fun j => ((w j).vals).getD k 0))⟩]⟩ := by
  rw [processProp, hm,
    layerLoop_run (filterCols dc p) n w (show (filterCols dc p).nrows = n from hn) hsel hlen,
    exBind_ok,
    meanLoop_run _ (fun k => specAgg (fun j => ((w j).vals).getD k 0)) (List.range n)
      (fun k _ => meanOfRow_spec (fun j => (w j).vals) k),
    exBind_ok, setCol_append dc p _ hnotin, hn]

end CatchAttr

namespace CatchAttr

lemma filter_none (l : List Col) (q : Col → Bool) (h : ∀ c ∈ l, q c = false) :
    l.filter q = [] := by
  induction l with
  | nil => rfl
  | cons c l ih =>
    rw [List.filter_cons, h c (List.mem_cons_self c l)]
    exact ih (fun c' hc' => h c' (List.mem_cons_of_mem _ hc'))

lemma filter_append_cols (n : Nat) (cols extra : List Col) (p : Name)
    (hx : ∀ e ∈ extra, occursIn p e.name = false) :
    filterCols ⟨n, cols ++ extra⟩ p = filterCols ⟨n, cols⟩ p := by
  show (⟨n, (cols ++ extra).filter _⟩ : DF) = ⟨n, cols.filter _⟩
  rw [List.filter_append, filter_none extra _ hx, List.append_nil]

lemma nodup_append_disj (l₁ l₂ : List Name) (h : (l₁ ++ l₂).Nodup) :
    ∀ a ∈ l₁, a ∉ l₂ := by
  induction l₁ with
  | nil => intro a ha; simp at ha
  | cons b l₁ ih =>
    rw [List.cons_append, List.nodup_cons] at h
    intro a ha
    rcases List.mem_cons.1 ha with rfl | ha'
    · intro hmem
      exact h.1 (List.mem_append_right l₁ hmem)
    · exact ih h.2 a ha'

lemma find?_append_none (l₁ l₂ : List Col) (f : Col → Bool) (h : ∀ c ∈ l₁, f c = false) :
    (l₁ ++ l₂).find? f = l₂.find? f := by
  induction l₁ with
  | nil => rfl
  | cons c l₁ ih =>
    rw [List.cons_append, List.find?_cons_of_neg _ (by simp [h c (List.mem_cons_self c l₁)]),
      ih (fun c' hc' => h c' (List.mem_cons_of_mem _ hc'))]

lemma find?_map_first (agg : Name → Col) (hname : ∀ q, (agg q).name = q) :
    ∀ (P : List Name) (p : Name), P.Nodup → p ∈ P →
      (P.map agg).find? (fun c => decide (c.name = p)) = some (agg p)
  | [], p, _, hp => by simp at hp
  | q :: P, p, hnd, hp => by
    rw [List.nodup_cons] at hnd
    by_cases hqp : q = p
    · subst hqp
      rw [List.map_cons, List.find?_cons_of_pos _ (by simp [hname])]
    · have hp' : p ∈ P := by
        rcases List.mem_cons.1 hp with rfl | hp'
        · exact absurd rfl hqp
        · exact hp'
      rw [List.map_cons, List.find?_cons_of_neg _ (by simp [hname, hqp]),
        find?_map_first agg hname P p hnd.2 hp']

lemma specAgg_congr (f g : Nat → ℚ) (h : ∀ j ∈ jseven, f j = g j) : specAgg f = specAgg g := by
  rw [specAgg, specAgg]
  congr 1
  apply Finset.sum_congr rfl
  intro i hi
  have hi6 : i < 6 := Finset.mem_range.1 hi
  rw [h (i + 1) (by simp [jseven]; omega), h (i + 2) (by simp [jseven]; omega)]

lemma propsLoop_run (d : DF) (n : Nat) (hn : d.nrows = n) (w : Name → Nat → Col)
    (hm : ∀ p ∈ detectedProps d, (filterCols d p).cols.length = 7)
    (hsel : ∀ p ∈ detectedProps d, ∀ j ∈ jseven,
      (filterCols (filterCols d p) (slTag j)).cols = [w p j])
    (hlen : ∀ p ∈ detectedProps d, ∀ j ∈ jseven, (w p j).vals.length = n)
    (hnotin : ∀ p ∈ detectedProps d, ∀ c ∈ d.cols, c.name ≠ p)
    (hoccpq : ∀ p ∈ detectedProps d, ∀ q ∈ detectedProps d, occursIn p q = true → p = q)
    (hnd : (detectedProps d).Nodup) :
    ∀ (todo done : List Name), detectedProps d = done ++ todo →
      propsLoop n todo ⟨n, d.cols ++ done.map (fun q => ⟨q,
        (List.range n).map (fun k => specAgg (fun j => ((w q j).vals).getD k 0))⟩)⟩ =
      .ok ⟨n, d.cols ++ (done ++ todo).map (fun q => ⟨q,
        (List.range n).map (fun k => specAgg (fun j => ((w q j).vals).getD k 0))⟩)⟩
  | [], done, heq => by rw [propsLoop, List.append_nil]
  | p :: todo, done, heq => by
    have hpP : p ∈ detectedProps d := by
      rw [heq]
      exact List.mem_append_right done (List.mem_cons_self p todo)
    have hpdone : p ∉ done := by
      intro hmem
      have hdisj := nodup_append_disj done (p :: todo) (heq ▸ hnd)
      exact hdisj p hmem (List.mem_cons_self p todo)
    have hqocc : ∀ q ∈ done, occursIn p q = false := by
      intro q hq
      cases hb : occursIn p q with
      | false => rfl
      | true =>
        have hqP : q ∈ detectedProps d := by
          rw [heq]
          exact List.mem_append_left _ hq
        exact absurd (hoccpq p hpP q hqP hb ▸ hq) hpdone
    have hfcur : filterCols ⟨n, d.cols ++ done.map (fun q => (⟨q,
        (List.range n).map (fun k => specAgg (fun j => ((w q j).vals).getD k 0))⟩ : Col))⟩ p
        = filterCols d p := by
      rw [filter_append_cols n d.cols _ p (by
        intro e he
        obtain ⟨q, hq, rfl⟩ := List.mem_map.1 he
        exact hqocc q hq)]
      rw [show d = ⟨d.nrows, d.cols⟩ from rfl, hn]
    have hstep := processProp_run
      ⟨n, d.cols ++ done.map (fun q => ⟨q,
        (List.range n).map (fun k => specAgg (fun j => ((w q j).vals).getD k 0))⟩)⟩
      n p (w p)
      (by rw [hfcur]; exact hm p hpP)
      rfl
      (by intro j hj; rw [hfcur]; exact hsel p hpP j hj)
      (fun j hj => hlen p hpP j hj)
      (by
        intro c hc hcp
        rcases List.mem_append.1 hc with hc1 | hc2
        · exact hnotin p hpP c hc1 hcp
        · obtain ⟨q, hq, rfl⟩ := List.mem_map.1 hc2
          have hqp : q = p := hcp
          exact hpdone (hqp ▸ hq))
    rw [propsLoop, hstep, exBind_ok]
    have hmassage : (d.cols ++ done.map (fun q => (⟨q,
        (List.range n).map (fun k => specAgg (fun j => ((w q j).vals).getD k 0))⟩ : Col))) ++
        [⟨p, (List.range n).map (fun k => specAgg (fun j => ((w p j).vals).getD k 0))⟩] =
        d.cols ++ (done ++ [p]).map (fun q => ⟨q,
          (List.range n).map (fun k => specAgg (fun j => ((w q j).vals).getD k 0))⟩) := by
      rw [List.map_append, List.append_assoc]
      rfl
    rw [hmassage, propsLoop_run d n hn w hm hsel hlen hnotin hoccpq hnd todo (done ++ [p])
      (by rw [heq, List.append_assoc]; rfl)]
    rw [List.append_assoc]
    rfl

lemma all_soil_run (d : DF) (hwf : HWf d) (h1 : HLayers d) (h2 : HUnrel d) (h3 : HTags d) :
    all_soil_depth_mean_weight_in_soilgrids250 d =
      .ok ⟨d.nrows, d.cols ++ (detectedProps d).map (fun q => ⟨q,
        (List.range d.nrows).map (fun k =>
          specAgg (fun j => (lookupCol d (layerName q j)).getD k 0))⟩)⟩ := by
  have hfacts : ∀ p ∈ detectedProps d, ∀ j ∈ jseven,
      (filterCols (filterCols d p) (slTag j)).cols =
        [(filterCols (filterCols d p) (slTag j)).cols.headD ⟨[], []⟩] ∧
      ((filterCols (filterCols d p) (slTag j)).cols.headD ⟨[], []⟩) ∈ d.cols ∧
      lookupCol d (layerName p j) =
        ((filterCols (filterCols d p) (slTag j)).cols.headD ⟨[], []⟩).vals := by
    intro p hp j hj
    obtain ⟨cj, hfil, _, hmem, hlook⟩ := layer_single d h1 h2 h3 p hp j hj
    rw [hfil]
    exact ⟨rfl, hmem, by rw [hlook, List.headD_cons]⟩
  have hrun := propsLoop_run d d.nrows rfl
    (fun p j => (filterCols (filterCols d p) (slTag j)).cols.headD ⟨[], []⟩)
    (fun p hp => seven_filter d h1 h2 h3 p hp)
    (fun p hp j hj => (hfacts p hp j hj).1)
    (fun p hp j hj => by
      rw [← (hfacts p hp j hj).2.2]
      show (lookupCol d (layerName p j)).length = d.nrows
      rw [(hfacts p hp j hj).2.2]
      exact hwf _ (hfacts p hp j hj).2.1)
    (fun p hp => notin_names d h2 p hp)
    (fun p hp q hq hocc => occ_prop_prop d h2 h3 p q hp hq hocc)
    (detect_nodup d h1 h2 h3)
    (detectedProps d) [] rfl
  simp only [List.map_nil, List.append_nil, List.nil_append] at hrun
  rw [all_soil_depth_mean_weight_in_soilgrids250]
  refine Eq.trans (show propsLoop d.nrows (detectedProps d) d = _ from hrun) ?_
  congr 1
  congr 1
  congr 1
  apply map_congr_own
  intro q hq
  congr 1
  apply map_congr_own
  intro k _
  apply specAgg_congr
  intro j hj
  rw [← (hfacts q hq j hj).2.2]

end CatchAttr

namespace CatchAttr

lemma mem_split_own {α : Type} (a : α) : ∀ (l : List α), a ∈ l → ∃ s t, l = s ++ a :: t
  | [], h => by simp at h
  | b :: l, h => by
    rcases List.mem_cons.1 h with rfl | h'
    · exact ⟨[], l, rfl⟩
    · obtain ⟨s, t, hst⟩ := mem_split_own a l h'
      exact ⟨b :: s, t, by rw [hst, List.cons_append]⟩

lemma processProp_ok_shape (dd : DF) (n : Nat) (q : Name) (d' : DF)
    (h : processProp dd n q = .ok d') : ∃ v, d' = setCol dd q v := by
  rw [processProp] at h
  cases hL : layerLoop (filterCols dd q) n (filterCols dd q).cols.length [1, 2, 3, 4, 5, 6, 7]
      (zerosMat n (filterCols dd q).cols.length) with
  | ok A =>
    rw [hL, exBind_ok] at h
    cases hM : meanLoop A (List.range n) with
    | ok means =>
      rw [hM, exBind_ok] at h
      injection h with h2
      exact ⟨means, h2.symm⟩
    | error e =>
      cases e
      rw [hM, exBind_error] at h
      exact absurd h (by simp)
  | error e =>
    cases e
    rw [hL, exBind_error] at h
    exact absurd h (by simp)

lemma setCol_nrows (d : DF) (nm : Name) (v : List ℚ) : (setCol d nm v).nrows = d.nrows := by
  rw [setCol]
  split <;> rfl

lemma setCol_names (d : DF) (nm : Name) (v : List ℚ) :
    ∀ c ∈ (setCol d nm v).cols, c.name ∈ d.cols.map Col.name ∨ c.name = nm := by
  rw [setCol]
  split
  · intro c hc
    obtain ⟨c', hc', hfc⟩ := List.mem_map.1 hc
    by_cases hnm : c'.name = nm
    · rw [if_pos hnm] at hfc
      right
      rw [← hfc]
    · rw [if_neg hnm] at hfc
      left
      rw [← hfc]
      exact List.mem_map.2 ⟨c', hc', rfl⟩
  · intro c hc
    rcases List.mem_append.1 hc with hc1 | hc2
    · exact .inl (List.mem_map.2 ⟨c, hc1, rfl⟩)
    · rw [List.mem_singleton.1 hc2]
      exact .inr rfl

lemma layerStep_empty_error (attr1 : DF) (n m : Nat) (A : List (List ℚ)) (j : Nat)
    (hsel : (filterCols attr1 (slTag j)).cols = []) (hn : 1 ≤ n) :
    layerStep attr1 n m A j = .error () := by
  have hv : flattenVals (filterCols attr1 (slTag j)) = [] := by
    show flattenAux (filterCols attr1 (slTag j)).cols _ = []
    rw [hsel]
    exact flattenAux_nil _
  rw [layerStep, hv]
  by_cases hj : j - 1 < m
  · rw [if_pos hj, if_neg (by simp; omega), if_neg (by simp)]
  · rw [if_neg hj]

lemma layerLoop_error (attr1 : DF) (n m : Nat) (j : Nat)
    (herr : ∀ A, layerStep attr1 n m A j = .error ()) :
    ∀ (l₁ l₂ : List Nat) (A : List (List ℚ)),
      layerLoop attr1 n m (l₁ ++ j :: l₂) A = .error ()
  | [], l₂, A => by rw [List.nil_append, layerLoop, herr A, exBind_error]
  | j' :: l₁, l₂, A => by
    rw [List.cons_append, layerLoop]
    cases hS : layerStep attr1 n m A j' with
    | ok A' =>
      rw [exBind_ok]
      exact layerLoop_error attr1 n m j herr l₁ l₂ A'
    | error e =>
      cases e
      rw [exBind_error]

lemma processProp_error (dd : DF) (n : Nat) (p : Name) (j : Nat) (hj : j ∈ jseven)
    (hn : 1 ≤ n)
    (hsel : (filterCols (filterCols dd p) (slTag j)).cols = []) :
    processProp dd n p = .error () := by
  obtain ⟨l₁, l₂, hsplit⟩ := mem_split_own j [1, 2, 3, 4, 5, 6, 7] hj
  rw [processProp, hsplit,
    layerLoop_error _ _ _ j (fun A => layerStep_empty_error _ _ _ A j hsel hn) l₁ l₂ _,
    exBind_error]

lemma propsLoop_error (n : Nat) (Inv : DF → Prop) (p : Name)
    (herr : ∀ dd, Inv dd → processProp dd n p = .error ()) :
    ∀ (l₁ l₂ : List Name) (dd : DF), Inv dd →
      (∀ dd' q, q ∈ l₁ → Inv dd' → ∀ dd'', processProp dd' n q = .ok dd'' → Inv dd'') →
      propsLoop n (l₁ ++ p :: l₂) dd = .error ()
  | [], l₂, dd, hInv, _ => by
    rw [List.nil_append, propsLoop, herr dd hInv, exBind_error]
  | q :: l₁, l₂, dd, hInv, hpres => by
    rw [List.cons_append, propsLoop]
    cases hS : processProp dd n q with
    | ok dd'' =>
      rw [exBind_ok]
      exact propsLoop_error n Inv p herr l₁ l₂ dd''
        (hpres dd q (List.mem_cons_self q l₁) hInv dd'' hS)
        (fun dd' q' hq' => hpres dd' q' (List.mem_cons_of_mem _ hq'))
    | error e =>
      cases e
      rw [exBind_error]

end CatchAttr

namespace CatchAttr

lemma propsLoopRef_comm (r : Nat) (n : Nat) : ∀ (todo : List Name) (σ : Store),
    propsLoopRef r n todo σ =
      exBind (propsLoop n todo (σ r)) (fun dres => .ok (fun q => if q = r then dres else σ q))
  | [], σ => by
    rw [propsLoopRef, propsLoop, exBind_ok]
    congr 1
    funext q
    by_cases h : q = r
    · rw [if_pos h, h]
    · rw [if_neg h]
  | p :: todo, σ => by
    rw [propsLoopRef, processPropRef, propsLoop]
    cases hS : processProp (σ r) n p with
    | ok d' =>
      simp only [exBind_ok]
      rw [propsLoopRef_comm r n todo (fun q => if q = r then d' else σ q)]
      rw [if_pos (rfl : r = r)]
      congr 1
      funext dres
      congr 1
      funext q
      by_cases h : q = r
      · rw [if_pos h, if_pos h]
      · rw [if_neg h, if_neg h, if_neg h]
    | error e =>
      cases e
      simp only [exBind_error]

lemma cellsOf_cons (r : List ℚ) (A : List (List ℚ)) : cellsOf (r :: A) = r ++ cellsOf A := rfl

lemma cellsOf_map (f : ℚ → ℚ) : ∀ (A : List (List ℚ)),
    cellsOf (A.map (fun row => row.map f)) = (cellsOf A).map f
  | [] => rfl
  | r :: A => by
    rw [List.map_cons, cellsOf_cons, cellsOf_cons, List.map_append, cellsOf_map f A]

lemma cellsOf_replicate (v : ℚ) (b : Nat) : ∀ (a : Nat),
    cellsOf (List.replicate a (List.replicate b v)) = List.replicate (a * b) v
  | 0 => by rw [Nat.zero_mul]; rfl
  | a + 1 => by
    rw [List.replicate_succ, cellsOf_cons, cellsOf_replicate v b a, ← List.replicate_add]
    congr 1
    rw [Nat.succ_mul, Nat.add_comm]

lemma foldl_min_replicate (v : ℚ) : ∀ (k : Nat), (List.replicate k v).foldl min v = v
  | 0 => rfl
  | k + 1 => by rw [List.replicate_succ, List.foldl_cons, min_self, foldl_min_replicate v k]

lemma gridMin_replicate (v : ℚ) (a b : Nat) (h : a * b ≠ 0) :
    gridMin (List.replicate a (List.replicate b v)) = v := by
  unfold gridMin
  rw [cellsOf_replicate v b a]
  obtain ⟨k, hk⟩ : ∃ k, a * b = k + 1 := ⟨a * b - 1, by omega⟩
  rw [hk, List.replicate_succ]
  exact foldl_min_replicate v k

lemma descOf_isSome (v : NcVar) :
    (descOf v).isSome = (v.longname.isSome || v.long_name.isSome) := by
  rw [descOf]
  cases v.longname with
  | some s => rfl
  | none => simp

lemma readLongnames_ok : ∀ (vs : List NcVar), (∀ v ∈ vs, (descOf v).isSome = true) →
    ∃ ln, readLongnames vs = .ok ln ∧ ln.map Prod.fst = vs.map NcVar.name
  | [], _ => ⟨[], rfl, rfl⟩
  | v :: vs, h => by
    obtain ⟨s, hs⟩ := Option.isSome_iff_exists.1 (h v (List.mem_cons_self v vs))
    obtain ⟨ln, hln, hmap⟩ := readLongnames_ok vs (fun v' hv' => h v' (List.mem_cons_of_mem _ hv'))
    refine ⟨(v.name, s) :: ln, ?_, ?_⟩
    · rw [readLongnames, hs]
      show exBind (readLongnames vs) (fun rest => .ok ((v.name, s) :: rest)) = _
      rw [hln, exBind_ok]
    · rw [List.map_cons, List.map_cons, hmap]

lemma readLongnames_error : ∀ (vs : List NcVar), (∃ v ∈ vs, descOf v = none) →
    readLongnames vs = .error ()
  | [], h => by
    obtain ⟨v, hv, _⟩ := h
    simp at hv
  | v :: vs, h => by
    rw [readLongnames]
    cases hd : descOf v with
    | none => rfl
    | some s =>
      obtain ⟨v', hv', hv'none⟩ := h
      have hv'vs : v' ∈ vs := by
        rcases List.mem_cons.1 hv' with rfl | h2
        · rw [hd] at hv'none
          exact absurd hv'none (by simp)
        · exact h2
      show exBind (readLongnames vs) (fun rest => .ok ((v.name, s) :: rest)) = _
      rw [readLongnames_error vs ⟨v', hv'vs, hv'none⟩, exBind_error]

lemma readUnits_keys : ∀ (vs : List NcVar),
    (readUnits vs).map Prod.fst = (vs.filter (fun v => v.units.isSome)).map NcVar.name
  | [] => rfl
  | v :: vs => by
    rw [readUnits, List.filter_cons]
    cases hu : v.units with
    | some u => simp [readUnits_keys vs]
    | none => simp [readUnits_keys vs]

lemma readVars_keys (vs : List NcVar) : (readVars vs).map Prod.fst = vs.map NcVar.name := by
  rw [readVars, List.map_map]
  rfl

end CatchAttr

namespace CatchAttr

lemma lookupCol_mk (n : Nat) (cols : List Col) (nm : Name) (c : Col)
    (h : cols.find? (fun c => decide (c.name = nm)) = some c) :
    lookupCol ⟨n, cols⟩ nm = c.vals := by
  show (match cols.find? (fun c => decide (c.name = nm)) with
    | some c => c.vals
    | none => ([] : List ℚ)) = c.vals
  rw [h]

lemma all_false {α : Type} (l : List α) (q : α → Bool) (h : l.all q = false) :
    ∃ x ∈ l, q x = false := by
  induction l with
  | nil => simp [List.all_nil] at h
  | cons a l ih =>
    rw [List.all_cons] at h
    cases ha : q a with
    | false => exact ⟨a, List.mem_cons_self a l, ha⟩
    | true =>
      rw [ha, Bool.true_and] at h
      obtain ⟨x, hx, hqx⟩ := ih h
      exact ⟨x, List.mem_cons_of_mem _ hx, hqx⟩

lemma exBind_assoc {α β γ : Type} (e : Except Unit α) (f : α → Except Unit β)
    (g : β → Except Unit γ) :
    exBind (exBind e f) g = exBind e (fun a => exBind (f a) g) := by
  cases e with
  | ok a => rfl
  | error e' =>
    cases e'
    rfl

end CatchAttr

namespace CatchAttr

/-- Claim C1 (counterexample): the claim's hypotheses hold for the table
`cdfA` — the detected property `asl2` has exactly its seven layer columns and
no property name occurs in an unrelated column name — yet
`all_soil_depth_mean_weight_in_soilgrids250` raises instead of producing the
trapezoidal value, because the layer tag `sl2` occurs inside the property
name, so the layer-2 pattern matches all seven columns. -/
theorem c1_counterexample :
    HWf cdfA ∧ HLayers cdfA ∧ HUnrel cdfA ∧
      all_soil_depth_mean_weight_in_soilgrids250 cdfA = .error () := by
  refine ⟨by decide, by decide, by decide, by decide⟩

/-- Claim C1 (amended): for every well-formed per-basin attribute table in
which each detected property has exactly its seven layer columns
`{p}_sl1 .. {p}_sl7`, no property name occurs as a substring of any unrelated
column name, and no layer tag `sl1 .. sl7` occurs as a substring of a property
name, the function succeeds and produces, for every row and every detected
property, the trapezoidal depth-weighted mean
`(Σ_i (d[i+1]-d[i])·(v_i+v_{i+1})/2) / 200` with `d = [0,5,15,30,60,100,200]`
and the layer values taken in strict layer order `sl1 .. sl7`, irrespective of
the order of the layer columns in the table. -/
theorem c1_layer_aggregation (d : DF) (hwf : HWf d) (h1 : HLayers d) (h2 : HUnrel d)
    (h3 : HTags d) :
    ∃ out, all_soil_depth_mean_weight_in_soilgrids250 d = .ok out ∧
      ∀ p ∈ detectedProps d, lookupCol out p =
        (List.range d.nrows).map (fun k =>
          specAgg (fun j => (lookupCol d (layerName p j)).getD k 0)) := by
  refine ⟨_, all_soil_run d hwf h1 h2 h3, ?_⟩
  intro p hp
  have hfind : (d.cols ++ (detectedProps d).map (fun q => (⟨q,
      (List.range d.nrows).map (fun k =>
        specAgg (fun j => (lookupCol d (layerName q j)).getD k 0))⟩ : Col))).find?
        (fun c => decide (c.name = p)) =
      some ⟨p, (List.range d.nrows).map (fun k =>
        specAgg (fun j => (lookupCol d (layerName p j)).getD k 0))⟩ := by
    rw [find?_append_none _ _ _ (fun c hc => by simp [notin_names d h2 p hp c hc])]
    exact find?_map_first _ (fun q => rfl) (detectedProps d) p (detect_nodup d h1 h2 h3) hp
  exact lookupCol_mk d.nrows _ p _ hfind

/-- Claim C1 (witness): the amended theorem applied to the shuffled
single-property table `cdf1`. -/
theorem c1_layer_aggregation_witness :
    (HWf cdf1 ∧ HLayers cdf1 ∧ HUnrel cdf1 ∧ HTags cdf1) ∧
      (∃ out, all_soil_depth_mean_weight_in_soilgrids250 cdf1 = .ok out ∧
        ∀ p ∈ detectedProps cdf1, lookupCol out p =
          (List.range cdf1.nrows).map (fun k =>
            specAgg (fun j => (lookupCol cdf1 (layerName p j)).getD k 0))) :=
  ⟨⟨by decide, by decide, by decide, by decide⟩,
    c1_layer_aggregation cdf1 (by decide) (by decide) (by decide) (by decide)⟩

/-- Claim C2 (counterexample): on the specification's synthetic table the
aggregated value is `89/2 = 44.5`, which is not approximately `32.75` — it
exceeds `131/4 + 11`. -/
theorem c2_counterexample :
    all_soil_depth_mean_weight_in_soilgrids250 cdf2 = .ok cdf2out ∧
      lookupCol cdf2out pX = [89 / 2] ∧ (131 : ℚ) / 4 + 11 < 89 / 2 := by
  refine ⟨by decide, by decide, by norm_num⟩

/-- Claim C2 (amended): for the synthetic single-row table with
`x_sl1 .. x_sl7 = [0,10,20,30,40,50,60]` the aggregated value equals the
specification formula `Σ_i (d[i+1]-d[i])·(v_i+v_{i+1})/2 / 200` with
boundaries `[0,5,15,30,60,100,200]`, a constant of exactly `44.5`. -/
theorem c2_exact_value :
    all_soil_depth_mean_weight_in_soilgrids250 cdf2 = .ok cdf2out ∧
      lookupCol cdf2out pX =
        [specAgg (fun j => (lookupCol cdf2 (layerName pX j)).getD 0 0)] ∧
      specAgg (fun j => (lookupCol cdf2 (layerName pX j)).getD 0 0) = 89 / 2 := by
  refine ⟨by decide, by decide, by decide⟩

/-- Claim C3 (counterexample): the function does not remove the per-layer
columns: on the synthetic table the output still contains `x_sl1`, with the
aggregate column appended after it. -/
theorem c3_counterexample :
    all_soil_depth_mean_weight_in_soilgrids250 cdf2 = .ok cdf2out ∧
      layerName pX 1 ∈ cdf2out.cols.map Col.name := by
  refine ⟨by decide, by decide⟩

/-- Claim C3 (amended): under the same hypotheses as the amended C1, the
returned table keeps every input column unchanged, in order, and appends one
new column per detected property, named after the property and holding the
aggregated values; the seven per-layer columns are retained, not removed. -/
theorem c3_append_aggregate (d : DF) (hwf : HWf d) (h1 : HLayers d) (h2 : HUnrel d)
    (h3 : HTags d) :
    all_soil_depth_mean_weight_in_soilgrids250 d =
      .ok ⟨d.nrows, d.cols ++ (detectedProps d).map (fun q => ⟨q,
        (List.range d.nrows).map (fun k =>
          specAgg (fun j => (lookupCol d (layerName q j)).getD k 0))⟩)⟩ :=
  all_soil_run d hwf h1 h2 h3

/-- Claim C3 (witness): the amended theorem applied to the synthetic
single-property table `cdf2`. -/
theorem c3_append_aggregate_witness :
    (HWf cdf2 ∧ HLayers cdf2 ∧ HUnrel cdf2 ∧ HTags cdf2) ∧
      all_soil_depth_mean_weight_in_soilgrids250 cdf2 =
        .ok ⟨cdf2.nrows, cdf2.cols ++ (detectedProps cdf2).map (fun q => ⟨q,
          (List.range cdf2.nrows).map (fun k =>
            specAgg (fun j => (lookupCol cdf2 (layerName q j)).getD k 0))⟩)⟩ :=
  ⟨⟨by decide, by decide, by decide, by decide⟩,
    c3_append_aggregate cdf2 (by decide) (by decide) (by decide) (by decide)⟩

/-- Claim C4 (counterexample): in `cdf44` the property `x` is detected, its
layer column `x_sl4` is absent, yet the function silently succeeds — the stray
column `x_sl44` matches the layer-4 pattern and its value `999` enters the
average. -/
theorem c4_counterexample :
    1 ≤ cdf44.nrows ∧ pX ∈ detectedProps cdf44 ∧
      layerName pX 4 ∉ cdf44.cols.map Col.name ∧
      all_soil_depth_mean_weight_in_soilgrids250 cdf44 =
        .ok ⟨1, cdf44.cols ++ [⟨pX, [12281 / 80]⟩]⟩ := by
  refine ⟨by decide, by decide, by decide, by decide⟩

/-- Claim C4 (amended): for every input table with at least one row in which a
property is detected via its `sl1` column and some layer tag `sl j` occurs in
no column matched by the property (in particular the layer column `{p}_sl j`
is absent) nor in any detected property name containing the property, the
function fails with an error. -/
theorem c4_missing_layer_error (d : DF) (p : Name) (hn : 1 ≤ d.nrows)
    (hp : p ∈ detectedProps d)
    (hj : ∃ j ∈ jseven,
      (∀ c ∈ d.cols.map Col.name, occursIn p c = true → occursIn (slTag j) c = false) ∧
      (∀ q ∈ detectedProps d, occursIn p q = true → occursIn (slTag j) q = false)) :
    all_soil_depth_mean_weight_in_soilgrids250 d = .error () := by
  obtain ⟨j, hjmem, hj1, hj2⟩ := hj
  obtain ⟨l₁, l₂, hsplit⟩ := mem_split_own p (detectedProps d) hp
  have herr : ∀ dd, (∀ c ∈ dd.cols, c.name ∈ d.cols.map Col.name ∨
      c.name ∈ detectedProps d) → processProp dd d.nrows p = .error () := by
    intro dd hInv
    apply processProp_error dd d.nrows p j hjmem hn
    show ((dd.cols.filter _).filter _ : List Col) = []
    rw [filter_filter_own]
    apply filter_none
    intro c hc
    cases hb : occursIn p c.name with
    | false => rw [Bool.false_and]
    | true =>
      have htag : occursIn (slTag j) c.name = false := by
        rcases hInv c hc with hmem | hmem
        · exact hj1 c.name hmem hb
        · exact hj2 c.name hmem hb
      rw [htag, Bool.and_false]
  rw [all_soil_depth_mean_weight_in_soilgrids250, hsplit]
  refine propsLoop_error d.nrows (fun dd => ∀ c ∈ dd.cols,
      c.name ∈ d.cols.map Col.name ∨ c.name ∈ detectedProps d) p herr l₁ l₂ d
    (fun c hc => .inl (List.mem_map.2 ⟨c, hc, rfl⟩)) ?_
  intro dd' q hq hInv dd'' hok
  obtain ⟨v, rfl⟩ := processProp_ok_shape dd' d.nrows q dd'' hok
  intro c hc
  rcases setCol_names dd' q v c hc with hmem | hmem
  · obtain ⟨c', hc', hcname⟩ := List.mem_map.1 hmem
    rcases hInv c' hc' with h | h
    · exact .inl (hcname ▸ h)
    · exact .inr (hcname ▸ h)
  · right
    rw [hmem, hsplit]
    exact List.mem_append_left _ hq

/-- Claim C4 (witness): the amended theorem applied to the table `cdf4m`,
which lacks `x_sl4` and has no stray column carrying the `sl4` tag. -/
theorem c4_missing_layer_error_witness :
    (1 ≤ cdf4m.nrows ∧ pX ∈ detectedProps cdf4m ∧
      (∃ j ∈ jseven,
        (∀ c ∈ cdf4m.cols.map Col.name, occursIn pX c = true →
          occursIn (slTag j) c = false) ∧
        (∀ q ∈ detectedProps cdf4m, occursIn pX q = true →
          occursIn (slTag j) q = false))) ∧
      all_soil_depth_mean_weight_in_soilgrids250 cdf4m = .error () :=
  ⟨⟨by decide, by decide, by decide⟩,
    c4_missing_layer_error cdf4m pX (by decide) (by decide) (by decide)⟩

/-- Claim C6: `binary2tif` replaces every cell holding the grid's minimum with
the sentinel `-9999` before downsampling: whenever the minimum differs from
`-9999`, no cell of the remapped grid still holds the minimum value. -/
theorem c6_sentinel_remap (A : List (List ℚ)) (h : gridMin A ≠ -9999) :
    gridHasCell (binary2tif_remap A) (gridMin A) = false := by
  rw [gridHasCell, binary2tif_remap, cellsOf_map]
  apply bfalse
  intro hb
  obtain ⟨x, hx, hdec⟩ := List.any_eq_true.1 hb
  obtain ⟨y, hy, rfl⟩ := List.mem_map.1 hx
  have hxeq : (if y = gridMin A then -9999 else y) = gridMin A := of_decide_eq_true hdec
  by_cases hy' : y = gridMin A
  · rw [if_pos hy'] at hxeq
    exact h hxeq.symm
  · rw [if_neg hy'] at hxeq
    exact hy' hxeq

/-- Claim C6 (witness): on the full-size 21600 × 43200 grid whose cells all
hold `7`, the minimum is `7`, and after the remap no cell holds `7` any
more. -/
theorem c6_sentinel_remap_witness :
    gridMin gridAllSeven ≠ -9999 ∧
      gridHasCell (binary2tif_remap gridAllSeven) (gridMin gridAllSeven) = false := by
  have hmin : gridMin gridAllSeven = 7 := gridMin_replicate 7 21600 43200 (by norm_num)
  constructor
  · rw [hmin]
    norm_num
  · exact c6_sentinel_remap gridAllSeven (by rw [hmin]; norm_num)

/-- Claim C7 (counterexample): `read_nc_data` opens `fUnitless` successfully,
but the variable lacking a `units` attribute is simply omitted from the units
mapping, so the three returned mappings do not share the same key set. -/
theorem c7_counterexample :
    read_nc_data pthN (some fUnitless) =
      .ok ([], some (readVars fUnitless.vars, [(['t'], ['T'])], readUnits fUnitless.vars)) ∧
      (readVars fUnitless.vars).map Prod.fst ≠ (readUnits fUnitless.vars).map Prod.fst := by
  refine ⟨by decide, by decide⟩

/-- Claim C7 (amended): for every file `read_nc_data` opens, if every variable
carries one of the two description attribute spellings the call succeeds, the
variables and descriptions mappings share the file's variable key set, and the
units mapping's keys are exactly the variables possessing a `units` attribute
(a missing unit is non-fatal and recorded by omission); if some variable lacks
both description spellings, the call raises. -/
theorem c7_keyset_partition (path : Name) (f : NcFile) :
    (hasAllDesc f = true →
      ∃ ln, read_nc_data path (some f) =
          .ok ([], some (readVars f.vars, ln, readUnits f.vars)) ∧
        (readVars f.vars).map Prod.fst = f.vars.map NcVar.name ∧
        ln.map Prod.fst = f.vars.map NcVar.name ∧
        (readUnits f.vars).map Prod.fst =
          (f.vars.filter (fun v => v.units.isSome)).map NcVar.name) ∧
    (hasAllDesc f = false → read_nc_data path (some f) = .error ()) := by
  constructor
  · intro hall
    have hds : ∀ v ∈ f.vars, (descOf v).isSome = true := by
      intro v hv
      rw [descOf_isSome]
      exact List.all_eq_true.1 hall v hv
    obtain ⟨ln, hln, hmap⟩ := readLongnames_ok f.vars hds
    refine ⟨ln, ?_, readVars_keys f.vars, hmap, readUnits_keys f.vars⟩
    rw [read_nc_data, hln]
  · intro hfail
    obtain ⟨v, hv, hvf⟩ := all_false f.vars _ hfail
    have h1 : v.longname = none := by
      cases hv1 : v.longname with
      | none => rfl
      | some s =>
        rw [hv1] at hvf
        simp at hvf
    have h2 : v.long_name = none := by
      cases hv2 : v.long_name with
      | none => rfl
      | some s =>
        rw [hv2] at hvf
        simp at hvf
    have hd : descOf v = none := by
      rw [descOf, h1]
      exact h2
    rw [read_nc_data, readLongnames_error f.vars ⟨v, hv, hd⟩]

/-- Claim C7 (witness): the amended theorem applied to the two-variable file
`fTwoVars`, in which both description spellings occur and one variable lacks
its unit. -/
theorem c7_keyset_partition_witness :
    hasAllDesc fTwoVars = true ∧
      (∃ ln, read_nc_data pth2 (some fTwoVars) =
          .ok ([], some (readVars fTwoVars.vars, ln, readUnits fTwoVars.vars)) ∧
        (readVars fTwoVars.vars).map Prod.fst = fTwoVars.vars.map NcVar.name ∧
        ln.map Prod.fst = fTwoVars.vars.map NcVar.name ∧
        (readUnits fTwoVars.vars).map Prod.fst =
          (fTwoVars.vars.filter (fun v => v.units.isSome)).map NcVar.name) :=
  ⟨by decide, (c7_keyset_partition pth2 fTwoVars).1 (by decide)⟩

/-- Claim C8: when the source file cannot be opened, `read_nc_data` catches
the `IOError`, prints a message naming the offending file, and returns the
absent result `None` instead of raising past the caller. -/
theorem c8_unreadable_reported (path : Name) :
    read_nc_data path none = .ok ([corruptedMsg path], none) ∧
      occursIn path (corruptedMsg path) = true := by
  refine ⟨rfl, ?_⟩
  rw [corruptedMsg]
  have h := occursIn_of_parts path
    ['F', 'i', 'l', 'e', ' ', 'c', 'o', 'r', 'r', 'u', 'p', 't', 'e', 'd', ':', ' '] []
  rwa [List.append_nil] at h

/-- Claim C9: property detection takes the text before the first underscore of
every column containing `sl1`, and columns are gathered by substring matching;
on the table `cdfS` both `sand` and `sandy` are detected, `sand` occurs as a
substring of the unrelated column `sandy_sl1`, and the function raises instead
of producing `sand`'s trapezoidal mean. -/
theorem c9_substring_collision :
    detectedProps cdfS = [pSand, pSandy] ∧
      occursIn pSand (layerName pSandy 1) = true ∧
      all_soil_depth_mean_weight_in_soilgrids250 cdfS = .error () := by
  refine ⟨by decide, by decide, by decide⟩

/-- Claim C10: the heap-level function mutates its argument in place — on
success the store is updated exactly at the argument reference `r` with the
aggregated table, every other reference is untouched, and the returned
reference is `r` itself, not a copy. -/
theorem c10_in_place_mutation (σ : Store) (r : Nat) :
    all_soil_ref σ r =
      exBind (all_soil_depth_mean_weight_in_soilgrids250 (σ r))
        (fun dres => .ok (fun q => if q = r then dres else σ q, r)) := by
  rw [all_soil_ref, all_soil_depth_mean_weight_in_soilgrids250,
    propsLoopRef_comm r ((σ r).nrows) (detectedProps (σ r)) σ, exBind_assoc]
  rfl

end CatchAttr
